import Mathlib

/-!
# Verification of the SSH session / SFTP tool engine

Shallow embedding, in Lean 4, of the session lifecycle and remote-operation
execution engine of the repository:

* `src/constants.ts`-style limits (modelled from the spec, the file itself is
  not among the sources),
* `sanitizeCommand` (`src/utils/validation.ts`),
* the bounded output capture of `SshClient.execCommand`
  (`src/services/ssh-client.ts`),
* `SftpClient.readFile` / `writeFile` / `listDirectory`
  (`src/services/sftp-client.ts`),
* `SessionRegistry` (`src/services/session-registry.ts`),
* the `SshToolHandlers` orchestrator (`src/tools/ssh-tools.ts`).

JavaScript strings are modelled as `List Char`; character budgets count one
unit per character exactly as `String.prototype.length` does for the code
points involved here (characters are identified with bytes, i.e. one-byte
characters: multi-byte encodings of a character are outside the model).
JavaScript `Map`s are modelled as association lists whose operations preserve
the key-uniqueness that a `Map` has structurally.  Thrown exceptions become
`Except String`, and methods that mutate `this` take and return an explicit
state.
-/

namespace Ssh

/-- Modelled from the spec: `src/constants.ts` is absent from the sources
(only its importers and its test are present).  The spec fixes the captured
output / file-read budget at 25 000 characters. -/
def CHARACTER_LIMIT : Nat := 25000

/-- Modelled from the spec: `src/constants.ts` is absent from the sources.
The spec fixes the command-length limit at 1 000 characters. -/
def COMMAND_MAX_CHARS : Nat := 1000

/-! ## Command validation (`sanitizeCommand`, src/utils/validation.ts) -/

/-- The character set removed by JavaScript `String.prototype.trim`
(ECMA-262 WhiteSpace ∪ LineTerminator). -/
def isJsWhitespace (c : Char) : Bool :=
  c = ' ' || c = '\t' || c = '\n' || c = '\r' ||
  c = '\u000b' || c = '\u000c' || c = '\u00a0' || c = '\ufeff' ||
  c = '\u1680' || ('\u2000' ≤ c && c ≤ '\u200a') ||
  c = '\u2028' || c = '\u2029' || c = '\u202f' || c = '\u205f' || c = '\u3000'

/-- `command.trim()`: strip leading and trailing whitespace. -/
def jsTrim (s : List Char) : List Char :=
  ((s.dropWhile isJsWhitespace).reverse.dropWhile isJsWhitespace).reverse

/-- `sanitizeCommand` (src/utils/validation.ts): trim, reject empty,
reject over-long (measured on the trimmed string), else return the
trimmed command. -/
def sanitizeCommand (command : List Char) : Except String (List Char) :=
  let trimmed := jsTrim command
  if trimmed.isEmpty then
    .error "command cannot be empty"
  else if trimmed.length > COMMAND_MAX_CHARS then
    .error "command exceeds 1000 characters"
  else
    .ok trimmed

/-! ## Connect-timeout resolution
(`ConnectParamsSchema` in src/tools/ssh-tools.ts and
`SshClient.connect` in src/services/ssh-client.ts) -/

/-- The zod check `z.number().int().min(lo).max(hi).optional()` applied to an
already-integral value: an absent value passes, a present value must lie in
`[lo, hi]`.  Out-of-range values are rejected (the parse throws), they are
not adjusted. -/
def checkOptIntRange (lo hi : Int) (p : Option Int) : Bool :=
  match p with
  | none => true
  | some v => lo ≤ v && v ≤ hi

/-- `this.config.connectTimeout ?? DEFAULT_CONNECT_TIMEOUT` in
`SshClient.connect`: the caller-supplied value if present, else 10 000 ms. -/
def resolveConnectTimeout (cfg : Option Int) : Int :=
  cfg.getD 10000

/-- The connect timeout actually used to race the handshake, as a function of
the caller-supplied `connect_timeout` parameter: `none` when the request is
rejected by `ConnectParamsSchema` before any connection attempt, otherwise
the value `SshClient.connect` arms its timer with. -/
def effectiveConnectTimeout (p : Option Int) : Option Int :=
  if checkOptIntRange 1000 60000 p then some (resolveConnectTimeout p) else none

/-- The spec's words for C3, for comparison: the caller-supplied value
"clamped to the range [1 000, 60 000] ms". -/
def specClampConnectTimeout (v : Int) : Int :=
  max 1000 (min v 60000)

/-! ## Bounded output capture (`SshClient.execCommand`,
src/services/ssh-client.ts) -/

/-- One `data` event observed while a command runs: a chunk on the stdout
stream or on the stderr stream. -/
inductive StreamEvent where
  | out (chunk : List Char)
  | err (chunk : List Char)
deriving DecidableEq

/-- The capture accumulator of `execCommand`: the `stdout`, `stderr` and
`truncated` locals of the promise executor. -/
structure CaptureState where
  stdout : List Char
  stderr : List Char
  truncated : Bool
deriving DecidableEq

/-- One stream's `data` handler: append the chunk, but once the captured
length would exceed `CHARACTER_LIMIT` keep only the prefix that fills the
budget and set the (shared) `truncated` flag. -/
def appendBounded (acc : List Char) (truncated : Bool) (chunk : List Char) :
    List Char × Bool :=
  if acc.length + chunk.length > CHARACTER_LIMIT then
    (acc ++ chunk.take (CHARACTER_LIMIT - acc.length), true)
  else
    (acc ++ chunk, truncated)

/-- Dispatch one event to the matching stream handler. -/
def captureStep (s : CaptureState) (e : StreamEvent) : CaptureState :=
  match e with
  | .out chunk =>
      let (stdout, truncated) := appendBounded s.stdout s.truncated chunk
      { s with stdout := stdout, truncated := truncated }
  | .err chunk =>
      let (stderr, truncated) := appendBounded s.stderr s.truncated chunk
      { s with stderr := stderr, truncated := truncated }

/-- The capture state when the channel closes, after the given sequence of
`data` events (starting from empty buffers and a clear flag, as in the
promise executor). -/
def captureEvents (events : List StreamEvent) : CaptureState :=
  events.foldl captureStep ⟨[], [], false⟩

/-- Total number of characters the remote command produced on stdout. -/
def rawStdout (events : List StreamEvent) : Nat :=
  (events.map fun e => match e with | .out c => c.length | .err _ => 0).sum

/-- Total number of characters the remote command produced on stderr. -/
def rawStderr (events : List StreamEvent) : Nat :=
  (events.map fun e => match e with | .out _ => 0 | .err c => c.length).sum

/-- The result `execCommand` resolves with on channel close. -/
structure ExecResultM where
  stdout : List Char
  stderr : List Char
  exitCode : Option Int
  truncated : Bool
deriving DecidableEq

/-- `execCommand`'s resolved value, given the stream events and the exit
code (or `none` if the channel closed without one). -/
def execCommandResult (events : List StreamEvent) (exitCode : Option Int) :
    ExecResultM :=
  let s := captureEvents events
  { stdout := s.stdout, stderr := s.stderr, exitCode := exitCode,
    truncated := s.truncated }

/-! ## Session registry (`SessionRegistry`, src/services/session-registry.ts) -/

/-- A registry entry (`SessionRecord`).  The ssh2 `Client` handle is opaque to
the registry; it is modelled by a numeric token. -/
structure SessionRecord where
  sessionId : String
  host : String
  port : Int
  username : String
  client : Nat
  createdAt : Nat
  lastUsedAt : Option Nat
deriving DecidableEq

/-- The registry's `Map` of sessions, keyed by `sessionId`.  The association
list keeps `Map` insertion order; `createSession` only ever inserts a fresh
`randomUUID`, so keys are unique. -/
abbrev RegistryMap := List SessionRecord

/-- `SessionRegistry.getSession`: `this.sessions.get(sessionId)`. -/
def getSession (reg : RegistryMap) (sessionId : String) : Option SessionRecord :=
  reg.find? (fun r => r.sessionId == sessionId)

/-- `SessionRegistry.createSession`, with the generated `randomUUID` passed
in explicitly (`now` likewise): builds the record with `lastUsedAt = null`
and `Map.set`s it.  For the fresh key `Map.set` appends. -/
def createSession (reg : RegistryMap) (sessionId host : String) (port : Int)
    (username : String) (client : Nat) (now : Nat) : SessionRecord × RegistryMap :=
  let record : SessionRecord :=
    { sessionId := sessionId, host := host, port := port, username := username,
      client := client, createdAt := now, lastUsedAt := none }
  (record, reg ++ [record])

/-- `SessionRegistry.removeSession`: look the record up, `Map.delete` it when
present, and return it (`undefined`, i.e. `none`, when absent).  Deleting the
key removes its (unique) entry; deleting an absent key is a no-op, which is
also what filtering by an absent key does. -/
def removeSession (reg : RegistryMap) (sessionId : String) :
    Option SessionRecord × RegistryMap :=
  (reg.find? (fun r => r.sessionId == sessionId),
   reg.filter (fun r => !(r.sessionId == sessionId)))

/-- `SessionRegistry.touchSession`: if the session exists, set its
`lastUsedAt` to now; silently do nothing otherwise. -/
def touchSession (reg : RegistryMap) (sessionId : String) (now : Nat) : RegistryMap :=
  reg.map (fun r => if r.sessionId == sessionId then { r with lastUsedAt := some now } else r)

/-- `SessionRegistry.listSessions` reduced to the ids it exposes (the
orchestrator's `cleanup` only consumes `session.sessionId`). -/
def listSessionIds (reg : RegistryMap) : List String :=
  reg.map (·.sessionId)

/-! ## SFTP bounded read and write (`SftpClient.readFile` / `writeFile`,
src/services/sftp-client.ts) -/

/-- `SftpClient.readFile`'s resolved value. -/
structure ReadFileResultM where
  path : List Char
  content : List Char
  size : Nat
  truncated : Bool
deriving DecidableEq

/-- `SftpClient.writeFile`'s resolved value. -/
structure WriteFileResultM where
  success : Bool
  path : List Char
  size : Nat
deriving DecidableEq

/-- `SftpClient.writeFile path content`: encode the content
(`Buffer.from(content, "utf-8")`, identity on the one-byte characters of the
model) and stream it to the remote path, overwriting it.  Returns the result
and the remote file's new contents. -/
def writeFile (path content : List Char) : WriteFileResultM × List Char :=
  ({ success := true, path := path, size := content.length }, content)

/-- `SftpClient.readFile path maxSize` against a remote file holding `file`:
`stat` the file for its full size, mark `truncated` when the size exceeds the
budget, and read bytes `0 .. min(size, maxSize) - 1` only. -/
def readFile (path file : List Char) (maxSize : Nat) : ReadFileResultM :=
  let size := file.length
  { path := path,
    content := file.take (min size maxSize),
    size := size,
    truncated := decide (size > maxSize) }

/-! ## Directory listing (`SftpClient.listDirectory`,
src/services/sftp-client.ts) -/

/-- SFTP file attributes as delivered by `readdir` / `stat`. -/
structure Attrs where
  mode : Nat
  uid : Nat
  gid : Nat
  size : Nat
  atime : Nat
  mtime : Nat
deriving DecidableEq

/-- One raw entry of the transport's `readdir` answer. -/
structure RawDirEntry where
  filename : List Char
  longname : List Char
  attrs : Attrs
deriving DecidableEq

/-- One triple of an rwx permission string (`perms[i]` in
`modeToPermissions`); the mask `& 7` keeps the index in range. -/
def permTriple (n : Nat) : String :=
  match n with
  | 0 => "---"
  | 1 => "--x"
  | 2 => "-w-"
  | 3 => "-wx"
  | 4 => "r--"
  | 5 => "r-x"
  | 6 => "rw-"
  | 7 => "rwx"
  | _ => ""

/-- `modeToPermissions`: render the Unix permission string from the mode
bits. -/
def modeToPermissions (mode : Nat) : String :=
  permTriple ((mode >>> 6) &&& 7) ++ permTriple ((mode >>> 3) &&& 7) ++
    permTriple (mode &&& 7)

/-- The mapped entry `listDirectory` returns.  `modifyTime` is kept as epoch
milliseconds (`mtime * 1000`); its ISO-8601 rendering is presentation. -/
structure FileInfo where
  filename : List Char
  longname : List Char
  attrs : Attrs
  isDirectory : Bool
  isFile : Bool
  permissions : String
  owner : Nat
  group : Nat
  size : Nat
  modifyTime : Nat
deriving DecidableEq

/-- The per-entry mapping of `listDirectory`: directory/file flags from the
mode bits, permissions string, and copied attributes. -/
def toFileInfo (item : RawDirEntry) : FileInfo :=
  { filename := item.filename,
    longname := item.longname,
    attrs := item.attrs,
    isDirectory := (item.attrs.mode &&& 0o40000) != 0,
    isFile := (item.attrs.mode &&& 0o100000) != 0,
    permissions := modeToPermissions item.attrs.mode,
    owner := item.attrs.uid,
    group := item.attrs.gid,
    size := item.attrs.size,
    modifyTime := item.attrs.mtime * 1000 }

/-- `a.localeCompare(b)` modelled as character-by-character lexicographic
comparison returning a negative, zero or positive integer. -/
def localeCompareM : List Char → List Char → Int
  | [], [] => 0
  | [], _ :: _ => -1
  | _ :: _, [] => 1
  | c :: cs, d :: ds =>
      if c < d then -1 else if d < c then 1 else localeCompareM cs ds

/-- The sort comparator of `listDirectory`: directories first, then by
name. -/
def fileCompare (a b : FileInfo) : Int :=
  if a.isDirectory && !b.isDirectory then -1
  else if !a.isDirectory && b.isDirectory then 1
  else localeCompareM a.filename b.filename

/-- The "not after" relation induced by the comparator; `Array.prototype.sort`
(stable since ES2019, modelled by the stable `List.mergeSort`) orders the
entries by it. -/
def fileLe (a b : FileInfo) : Bool :=
  fileCompare a b ≤ 0

/-- `listDirectory`'s resolved value. -/
structure ListResultM where
  path : List Char
  files : List FileInfo
  count : Nat
deriving DecidableEq

/-- `SftpClient.listDirectory path` given the transport's raw `readdir`
enumeration: map each entry, then sort (directories first, then
lexicographically by filename). -/
def listDirectory (path : List Char) (list : List RawDirEntry) : ListResultM :=
  let files := (list.map toFileInfo).mergeSort fileLe
  { path := path, files := files, count := files.length }

/-! ## Session orchestrator (`SshToolHandlers`, src/tools/ssh-tools.ts) -/

/-- The `SshClient` instance held in the orchestrator's `clients` map.
`clientToken` stands for the opaque ssh2 `Client` that `getClient()`
exposes; `closeThrows` says whether `close()` fails; `execOutcome` is what
the transport resolves (or rejects) a command execution with. -/
structure SshClientH where
  clientToken : Nat
  closeThrows : Bool
  execOutcome : Except String ExecResultM

/-- The `SftpClient` instance held in the `sftpClients` map; `closeThrows`
says whether its `close()` throws. -/
structure SftpH where
  closeThrows : Bool
deriving DecidableEq

/-- `SshClient.close()` as observed by the orchestrator. -/
def sshClose (c : SshClientH) : Except String Unit :=
  if c.closeThrows then .error "close failed" else .ok ()

/-- `SftpClient.close()` as observed by the orchestrator. -/
def sftpClose (c : SftpH) : Except String Unit :=
  if c.closeThrows then .error "end failed" else .ok ()

/-- `Map.get`. -/
def alGet {β : Type} (m : List (String × β)) (k : String) : Option β :=
  (m.find? fun p => p.1 == k).map (·.2)

/-- `Map.set`: replace the key's entry when present, append otherwise. -/
def alSet {β : Type} (m : List (String × β)) (k : String) (v : β) :
    List (String × β) :=
  if (m.find? fun p => p.1 == k).isSome then
    m.map fun p => if p.1 == k then (k, v) else p
  else
    m ++ [(k, v)]

/-- `Map.delete`: remove the key's entry; a no-op for an absent key. -/
def alDelete {β : Type} (m : List (String × β)) (k : String) :
    List (String × β) :=
  m.filter fun p => !(p.1 == k)

/-- The mutable fields of `SshToolHandlers`. -/
structure Handlers where
  registry : RegistryMap
  clients : List (String × SshClientH)
  sftpClients : List (String × SftpH)
  defaultSessionId : Option String

/-- JavaScript truthiness of an optional string: `undefined` and `""` are
falsy. -/
def truthy (s : Option String) : Bool :=
  match s with
  | none => false
  | some v => !(v == "")

/-- `getEffectiveSessionId`: the caller's id if (truthy) present, else the
default session id if set, else a configuration error. -/
def getEffectiveSessionId (st : Handlers) (sessionId : Option String) :
    Except String String :=
  if truthy sessionId then .ok (sessionId.getD "")
  else if truthy st.defaultSessionId then .ok (st.defaultSessionId.getD "")
  else .error "No session_id provided and no default session available. Please connect first or configure server in environment variables."

/-- `getSftpClient`: return the session's existing SFTP client, else create
one from the session's SSH client (failing when there is none) and cache it.
`init()` is modelled as succeeding; an init failure would leave the map
untouched and propagate, exactly like the client-not-found branch. -/
def getSftpClient (st : Handlers) (sessionId : String) :
    Handlers × Except String SftpH :=
  match alGet st.sftpClients sessionId with
  | some sftp => (st, .ok sftp)
  | none =>
      match alGet st.clients sessionId with
      | none => (st, .error ("Client not found for session: " ++ sessionId))
      | some _ =>
          let sftp : SftpH := { closeThrows := false }
          ({ st with sftpClients := alSet st.sftpClients sessionId sftp },
           .ok sftp)

/-- The `ssh_connect` parameters after zod defaulting. -/
structure ConnectParams where
  host : String
  port : Int
  username : String
  password : Option String
  private_key : Option String
  private_key_path : Option String
  passphrase : Option String
  timeout : Option Int
  connect_timeout : Option Int
deriving DecidableEq

/-- `ConnectParamsSchema.parse`: non-empty host and username, port in
[1, 65535], timeouts (when present) within their zod bounds. -/
def connectParamsValid (p : ConnectParams) : Bool :=
  1 ≤ p.host.length && 1 ≤ p.port && p.port ≤ 65535 && 1 ≤ p.username.length &&
  checkOptIntRange 1000 300000 p.timeout &&
  checkOptIntRange 1000 60000 p.connect_timeout

/-- `!validated.password && !validated.private_key && !validated.private_key_path`
negated: at least one authentication field is (truthy) present. -/
def hasAuthMethod (p : ConnectParams) : Bool :=
  truthy p.password || truthy p.private_key || truthy p.private_key_path

/-- `SshToolHandlers.connect`: validate the parameters, require an
authentication method **before** any network activity, then run the
handshake (`client.connect()`, abstracted by its outcome), register the
session and store the client.  `newSessionId` is the generated `randomUUID`,
`client` the constructed `SshClient`. -/
def connect (st : Handlers) (p : ConnectParams) (newSessionId : String)
    (client : SshClientH) (handshake : Except String Unit) (now : Nat) :
    Handlers × Except String String :=
  if !connectParamsValid p then
    (st, .error "Invalid connect parameters")
  else if !hasAuthMethod p then
    (st, .error "At least one authentication method is required (password, private_key, or private_key_path)")
  else
    match handshake with
    | .error msg => (st, .error ("Failed to connect: " ++ msg))
    | .ok _ =>
        let (session, registry) := createSession st.registry newSessionId
          p.host p.port p.username client.clientToken now
        let st' := { st with registry := registry,
                             clients := alSet st.clients session.sessionId client }
        (st', .ok session.sessionId)

/-- The `ssh_exec` parameters. -/
structure ExecParams where
  session_id : Option String
  command : List Char
  timeout : Option Int
deriving DecidableEq

/-- `ExecParamsSchema.parse`: non-empty command, timeout (when present)
within its zod bounds. -/
def execParamsValid (p : ExecParams) : Bool :=
  1 ≤ p.command.length && checkOptIntRange 1000 300000 p.timeout

/-- `SshToolHandlers.exec`: validate, resolve the session, look up the
client, sanitize the command, and only then touch the session and run the
command. -/
def exec (st : Handlers) (p : ExecParams) (now : Nat) :
    Handlers × Except String ExecResultM :=
  if !execParamsValid p then (st, .error "Invalid exec parameters")
  else
    match getEffectiveSessionId st p.session_id with
    | .error e => (st, .error e)
    | .ok id =>
        match getSession st.registry id with
        | none => (st, .error ("Session not found: " ++ id))
        | some _ =>
            match alGet st.clients id with
            | none => (st, .error ("Client not found for session: " ++ id))
            | some client =>
                match sanitizeCommand p.command with
                | .error e => (st, .error e)
                | .ok _ =>
                    ({ st with registry := touchSession st.registry id now },
                     client.execOutcome)

/-- `SshToolHandlers.disconnect`: resolve the session, close the SFTP client
(if any) before the SSH client — close failures propagate here, there is no
try/catch — remove the registry entry, and clear the default id when it was
the disconnected session. -/
def disconnect (st : Handlers) (sessionId : Option String) :
    Handlers × Except String String :=
  match getEffectiveSessionId st sessionId with
  | .error e => (st, .error e)
  | .ok id =>
      match getSession st.registry id with
      | none => (st, .error ("Session not found: " ++ id))
      | some session =>
          let stepSftp : Handlers × Except String Unit :=
            match alGet st.sftpClients id with
            | some sftp =>
                match sftpClose sftp with
                | .error e => (st, .error e)
                | .ok _ =>
                    ({ st with sftpClients := alDelete st.sftpClients id },
                     .ok ())
            | none => (st, .ok ())
          match stepSftp with
          | (st1, .error e) => (st1, .error e)
          | (st1, .ok _) =>
              let stepClient : Handlers × Except String Unit :=
                match alGet st1.clients id with
                | some c =>
                    match sshClose c with
                    | .error e => (st1, .error e)
                    | .ok _ =>
                        ({ st1 with clients := alDelete st1.clients id },
                         .ok ())
                | none => (st1, .ok ())
              match stepClient with
              | (st2, .error e) => (st2, .error e)
              | (st2, .ok _) =>
                  let st3 := { st2 with
                    registry := (removeSession st2.registry id).2 }
                  let st4 :=
                    if st3.defaultSessionId = some id then
                      { st3 with defaultSessionId := none }
                    else st3
                  (st4, .ok ("Disconnected from " ++ session.username ++ "@"
                    ++ session.host))

/-- One iteration of `cleanup`'s loop: close (errors swallowed by the
`try`/`catch`) and delete the session's SFTP client and SSH client, then
remove the registry entry. -/
def cleanupStep (acc : Handlers) (id : String) : Handlers :=
  let acc1 :=
    match alGet acc.sftpClients id with
    | some sftp =>
        match sftpClose sftp with
        | _ => { acc with sftpClients := alDelete acc.sftpClients id }
    | none => acc
  let acc2 :=
    match alGet acc1.clients id with
    | some c =>
        match sshClose c with
        | _ => { acc1 with clients := alDelete acc1.clients id }
    | none => acc1
  { acc2 with registry := (removeSession acc2.registry id).2 }

/-- `SshToolHandlers.cleanup`: run the loop over a snapshot of the
registry's sessions, then clear the default id. -/
def cleanup (st : Handlers) : Handlers :=
  let st' := (listSessionIds st.registry).foldl cleanupStep st
  { st' with defaultSessionId := none }

/-- The C9 invariant: every session id with a live SFTP client also has a
live SSH client. -/
def sftpSubsetClients (st : Handlers) : Prop :=
  ∀ id : String, (alGet st.sftpClients id).isSome = true →
    (alGet st.clients id).isSome = true

/-- A concrete session record used by witnesses. -/
def sampleRecord : SessionRecord :=
  { sessionId := "s1", host := "h", port := 22, username := "u",
    client := 0, createdAt := 0, lastUsedAt := none }

/-- A concrete raw directory entry (a regular file) used by witnesses. -/
def sampleRawFile : RawDirEntry :=
  { filename := ['b'], longname := [],
    attrs := { mode := 0o100644, uid := 0, gid := 0, size := 5,
               atime := 0, mtime := 0 } }

/-- A concrete raw directory entry (a directory) used by witnesses. -/
def sampleRawDir : RawDirEntry :=
  { filename := ['a'], longname := [],
    attrs := { mode := 0o40755, uid := 0, gid := 0, size := 0,
               atime := 0, mtime := 0 } }

/-- A concrete orchestrator state used by witnesses: one registered session
with an SSH client and an SFTP client whose close both throw. -/
def sampleHandlers : Handlers :=
  { registry := [sampleRecord],
    clients := [("s1", { clientToken := 0, closeThrows := true,
                         execOutcome := .error "not run" })],
    sftpClients := [("s1", { closeThrows := true })],
    defaultSessionId := some "s1" }

/-- A concrete connect request carrying no authentication method, used by
witnesses. -/
def sampleNoAuthParams : ConnectParams :=
  { host := "h", port := 22, username := "u", password := none,
    private_key := none, private_key_path := none, passphrase := none,
    timeout := none, connect_timeout := none }

/-- A concrete SSH client handle used by witnesses. -/
def sampleClient : SshClientH :=
  { clientToken := 1, closeThrows := false, execOutcome := .error "not run" }

/-- A concrete exec request whose command is whitespace-only, used by
witnesses. -/
def sampleBadExecParams : ExecParams :=
  { session_id := some "s1", command := [' '], timeout := none }

/-! # Theorems -/

/-- C3 counterexample: a caller-supplied connect timeout of 500 ms is not
clamped to 1 000 ms; `ConnectParamsSchema` rejects the request outright, so
no handshake is raced at all. -/
theorem connectTimeout_clamp_cex :
    effectiveConnectTimeout (some 500) = none ∧
    specClampConnectTimeout 500 = 1000 := by
  decide

/-- C3 (amended): a caller-supplied connect timeout inside [1 000, 60 000] ms
is used exactly as given to race the handshake; an out-of-range value is
rejected by parameter validation before any connection attempt; an absent
value defaults to 10 000 ms. -/
theorem effectiveConnectTimeout_spec (v : Int) :
    (1000 ≤ v → v ≤ 60000 → effectiveConnectTimeout (some v) = some v) ∧
    (v < 1000 ∨ 60000 < v → effectiveConnectTimeout (some v) = none) ∧
    effectiveConnectTimeout none = some 10000 := by
  refine ⟨fun h1 h2 => ?_, fun h => ?_, by decide⟩
  · simp [effectiveConnectTimeout, checkOptIntRange, resolveConnectTimeout, h1, h2]
  · have : ¬ (1000 ≤ v ∧ v ≤ 60000) := by omega
    simp [effectiveConnectTimeout, checkOptIntRange, resolveConnectTimeout]
    omega

/-- Witness for `effectiveConnectTimeout_spec` at the concrete values 5 000
(in range) and 70 000 (out of range). -/
theorem effectiveConnectTimeout_spec_witness :
    effectiveConnectTimeout (some 5000) = some 5000 ∧
    effectiveConnectTimeout (some 70000) = none := by
  exact ⟨(effectiveConnectTimeout_spec 5000).1 (by decide) (by decide),
         (effectiveConnectTimeout_spec 70000).2.1 (by decide)⟩

/-- C2: `writeFile` then `readFile` (with the default 25 000 budget) returns
the content unchanged with `truncated = false` when it fits the budget; for
longer content it returns exactly the first 25 000 characters with
`truncated = true`, while `size` still reports the full stored length. -/
theorem writeFile_readFile_roundTrip (path content : List Char) :
    (content.length ≤ CHARACTER_LIMIT →
      readFile path (writeFile path content).2 CHARACTER_LIMIT =
        ⟨path, content, content.length, false⟩) ∧
    (CHARACTER_LIMIT < content.length →
      (readFile path (writeFile path content).2 CHARACTER_LIMIT).content =
          content.take CHARACTER_LIMIT ∧
      (readFile path (writeFile path content).2 CHARACTER_LIMIT).truncated = true ∧
      (readFile path (writeFile path content).2 CHARACTER_LIMIT).size =
          content.length) := by
  constructor
  · intro h
    simp [readFile, writeFile, Nat.min_eq_left h, List.take_of_length_le (le_refl _)]
    omega
  · intro h
    refine ⟨?_, ?_, ?_⟩
    · simp [readFile, writeFile, Nat.min_eq_right (le_of_lt h)]
    · simp [readFile, writeFile]
      omega
    · simp [readFile, writeFile]

/-- Witness for `writeFile_readFile_roundTrip`: the three-character content
"abc" round-trips unchanged, and a 25 001-character content comes back as
its 25 000-character prefix, flagged truncated, with the full size. -/
theorem writeFile_readFile_roundTrip_witness :
    readFile [] (writeFile [] ['a', 'b', 'c']).2 CHARACTER_LIMIT =
      ⟨[], ['a', 'b', 'c'], 3, false⟩ ∧
    (readFile [] (writeFile [] (List.replicate 25001 'x')).2 CHARACTER_LIMIT).truncated
      = true ∧
    (readFile [] (writeFile [] (List.replicate 25001 'x')).2 CHARACTER_LIMIT).size
      = 25001 := by
  have h1 := (writeFile_readFile_roundTrip [] ['a', 'b', 'c']).1 (by decide)
  have h2 := (writeFile_readFile_roundTrip [] (List.replicate 25001 'x')).2
    (by rw [List.length_replicate]; decide)
  exact ⟨h1, h2.2.1, by rw [h2.2.2, List.length_replicate]⟩

/-- C8: removal from the session registry is idempotent and non-throwing:
after `removeSession id`, `getSession id` is absent; a second removal of the
same id (or any removal of an absent id) returns absent and leaves the
registry unchanged. -/
theorem removeSession_idempotent (reg : RegistryMap) (sessionId : String) :
    getSession (removeSession reg sessionId).2 sessionId = none ∧
    (removeSession (removeSession reg sessionId).2 sessionId).1 = none ∧
    (removeSession (removeSession reg sessionId).2 sessionId).2 =
      (removeSession reg sessionId).2 ∧
    (getSession reg sessionId = none → removeSession reg sessionId = (none, reg)) := by
  refine ⟨?_, ?_, ?_, fun h => ?_⟩
  · rw [getSession, List.find?_eq_none]
    intro r hr
    have := List.of_mem_filter hr
    simpa using this
  · rw [removeSession]
    simp only [List.find?_eq_none]
    intro r hr
    have := List.of_mem_filter hr
    simpa using this
  · rw [removeSession]
    simp only
    rw [List.filter_eq_self]
    intro r hr
    have := List.of_mem_filter hr
    simpa using this
  · rw [removeSession]
    rw [getSession, List.find?_eq_none] at h
    refine Prod.ext ?_ ?_
    · simp only [List.find?_eq_none]
      exact h
    · simp only
      rw [List.filter_eq_self]
      intro r hr
      simpa using h r hr

/-- Witness for `removeSession_idempotent` on a concrete one-session
registry, discharging the absent-id hypothesis at an unknown id. -/
theorem removeSession_idempotent_witness :
    getSession (removeSession [sampleRecord] "s1").2 "s1" = none ∧
    removeSession [sampleRecord] "s2" = (none, [sampleRecord]) := by
  refine ⟨(removeSession_idempotent _ "s1").1, ?_⟩
  exact (removeSession_idempotent _ "s2").2.2.2 (by decide)

/-- Invariant of the capture loop: each buffer holds `min raw CHARACTER_LIMIT`
characters of its stream's raw output, and the shared flag is set exactly when
one of the raw outputs overflowed the budget. -/
theorem captureStep_foldl_spec :
    ∀ (events : List StreamEvent) (s : CaptureState) (a b : Nat),
      s.stdout.length = min a CHARACTER_LIMIT →
      s.stderr.length = min b CHARACTER_LIMIT →
      (s.truncated = true ↔ (CHARACTER_LIMIT < a ∨ CHARACTER_LIMIT < b)) →
      (events.foldl captureStep s).stdout.length
          = min (a + rawStdout events) CHARACTER_LIMIT ∧
      (events.foldl captureStep s).stderr.length
          = min (b + rawStderr events) CHARACTER_LIMIT ∧
      ((events.foldl captureStep s).truncated = true ↔
        (CHARACTER_LIMIT < a + rawStdout events ∨
         CHARACTER_LIMIT < b + rawStderr events))
  | [], s, a, b, h1, h2, h3 => by
      simpa [rawStdout, rawStderr] using ⟨h1, h2, h3⟩
  | .out chunk :: es, s, a, b, h1, h2, h3 => by
      have hstep := captureStep_foldl_spec es (captureStep s (.out chunk))
        (a + chunk.length) b ?_ ?_ ?_
      · have hout : rawStdout (.out chunk :: es) = chunk.length + rawStdout es := by
          simp [rawStdout]
        have herr : rawStderr (.out chunk :: es) = rawStderr es := by
          simp [rawStderr]
        rw [List.foldl_cons, hout, herr, ← Nat.add_assoc]
        exact hstep
      · simp only [captureStep, appendBounded]
        split
        · next hgt => simp at hgt ⊢; omega
        · next hle => simp at hle ⊢; omega
      · simpa [captureStep, appendBounded] using h2
      · simp only [captureStep, appendBounded]
        split
        · next hgt => simp at hgt ⊢; omega
        · next hle => simp at hle ⊢; rw [h3]; omega
  | .err chunk :: es, s, a, b, h1, h2, h3 => by
      have hstep := captureStep_foldl_spec es (captureStep s (.err chunk))
        a (b + chunk.length) ?_ ?_ ?_
      · have hout : rawStdout (.err chunk :: es) = rawStdout es := by
          simp [rawStdout]
        have herr : rawStderr (.err chunk :: es) = chunk.length + rawStderr es := by
          simp [rawStderr]
        rw [List.foldl_cons, hout, herr, ← Nat.add_assoc]
        exact hstep
      · simpa [captureStep, appendBounded] using h1
      · simp only [captureStep, appendBounded]
        split
        · next hgt => simp at hgt ⊢; omega
        · next hle => simp at hle ⊢; omega
      · simp only [captureStep, appendBounded]
        split
        · next hgt => simp at hgt ⊢; omega
        · next hle => simp at hle ⊢; rw [h3]; omega

/-- C1: if a command's raw output on one stream exceeds 25 000 characters,
the result of `execCommand` carries that stream capped at exactly 25 000
characters (never longer), and the single `truncated` flag — shared by both
streams — is set exactly when either stream overflowed. -/
theorem execCommand_truncation (events : List StreamEvent) (exitCode : Option Int) :
    (CHARACTER_LIMIT < rawStdout events →
      (execCommandResult events exitCode).stdout.length = CHARACTER_LIMIT) ∧
    (CHARACTER_LIMIT < rawStderr events →
      (execCommandResult events exitCode).stderr.length = CHARACTER_LIMIT) ∧
    (execCommandResult events exitCode).stdout.length ≤ CHARACTER_LIMIT ∧
    (execCommandResult events exitCode).stderr.length ≤ CHARACTER_LIMIT ∧
    ((execCommandResult events exitCode).truncated = true ↔
      (CHARACTER_LIMIT < rawStdout events ∨ CHARACTER_LIMIT < rawStderr events)) := by
  have h := captureStep_foldl_spec events ⟨[], [], false⟩ 0 0 (by simp) (by simp) (by simp)
  have e1 : (execCommandResult events exitCode).stdout = (captureEvents events).stdout := rfl
  have e2 : (execCommandResult events exitCode).stderr = (captureEvents events).stderr := rfl
  have e3 : (execCommandResult events exitCode).truncated = (captureEvents events).truncated := rfl
  rw [e1, e2, e3]
  unfold captureEvents
  obtain ⟨h1, h2, h3⟩ := h
  simp only [Nat.zero_add] at h1 h2 h3
  refine ⟨fun hlt => ?_, fun hlt => ?_, ?_, ?_, ?_⟩
  · omega
  · omega
  · omega
  · omega
  · exact h3

/-- Witness for `execCommand_truncation`: one 25 001-character stdout chunk
overflows the budget, so the result is truncated to exactly 25 000 characters
and flagged. -/
theorem execCommand_truncation_witness :
    CHARACTER_LIMIT < rawStdout [.out (List.replicate 25001 'a')] ∧
    (execCommandResult [.out (List.replicate 25001 'a')] (some 0)).stdout.length
      = CHARACTER_LIMIT ∧
    (execCommandResult [.out (List.replicate 25001 'a')] (some 0)).truncated
      = true := by
  have hlt : CHARACTER_LIMIT < rawStdout [.out (List.replicate 25001 'a')] := by
    rw [rawStdout]
    simp only [List.map_cons, List.map_nil, List.length_replicate, List.sum_cons,
      List.sum_nil]
    decide
  have h := execCommand_truncation [.out (List.replicate 25001 'a')] (some 0)
  exact ⟨hlt, h.1 hlt, h.2.2.2.2.mpr (Or.inl hlt)⟩

/-- Dropping a satisfying prefix does not change whether every element
satisfies the predicate. -/
theorem forall_mem_dropWhile_iff (p : Char → Bool) (l : List Char) :
    (∀ c ∈ l.dropWhile p, p c) ↔ (∀ c ∈ l, p c) := by
  constructor
  · intro h c hc
    have hc' : c ∈ l.takeWhile p ++ l.dropWhile p := by
      rw [List.takeWhile_append_dropWhile]
      exact hc
    rcases List.mem_append.mp hc' with h' | h'
    · exact List.mem_takeWhile_imp h'
    · exact h c h'
  · intro h c hc
    exact h c ((List.dropWhile_sublist p).mem hc)

/-- `trim` yields the empty string exactly for whitespace-only input. -/
theorem jsTrim_eq_nil_iff (l : List Char) :
    jsTrim l = [] ↔ ∀ c ∈ l, isJsWhitespace c := by
  rw [jsTrim, List.reverse_eq_nil_iff, List.dropWhile_eq_nil_iff]
  constructor
  · intro h
    rw [← forall_mem_dropWhile_iff isJsWhitespace l]
    intro c hc
    exact h c (List.mem_reverse.mpr hc)
  · intro h c hc
    exact h c ((List.dropWhile_sublist _).mem (List.mem_reverse.mp hc))

/-- Dropping whitespace from a whitespace block followed by a non-whitespace
block removes exactly the whitespace block. -/
theorem dropWhile_ws_append_replicate (ws : List Char)
    (hws : ∀ c ∈ ws, isJsWhitespace c) (n : Nat) :
    List.dropWhile isJsWhitespace (ws ++ List.replicate (n + 1) 'a')
      = List.replicate (n + 1) 'a' := by
  induction ws with
  | nil =>
      rw [List.nil_append, List.replicate_succ, List.dropWhile_cons]
      simp [show isJsWhitespace 'a' = false from by decide]
  | cons c cs ih =>
      rw [List.cons_append, List.dropWhile_cons, hws c (by simp)]
      simp only [if_true]
      exact ih fun d hd => hws d (by simp [hd])

/-- `trim` is the identity on a block of non-whitespace characters followed
by trailing whitespace: only the trailing whitespace goes. -/
theorem jsTrim_replicate_append (n : Nat) (t : List Char)
    (ht : ∀ c ∈ t, isJsWhitespace c) :
    jsTrim (List.replicate (n + 1) 'a' ++ t) = List.replicate (n + 1) 'a' := by
  have ha : isJsWhitespace 'a' = false := by decide
  rw [jsTrim]
  rw [List.replicate_succ, List.cons_append, List.dropWhile_cons, ha]
  simp only [Bool.false_eq_true, if_false]
  rw [← List.cons_append, ← List.replicate_succ, List.reverse_append,
    List.reverse_replicate,
    dropWhile_ws_append_replicate t.reverse
      (fun c hc => ht c (List.mem_reverse.mp hc)) n,
    List.reverse_replicate]

/-- C5 counterexample: a 1 001-character command (1 000 letters followed by
one trailing space) is longer than 1 000 characters, yet `sanitizeCommand`
does not reject it — the length check runs on the trimmed string, so the
command is accepted and returned trimmed. -/
theorem sanitizeCommand_length_cex :
    (List.replicate 1000 'a' ++ [' ']).length = 1001 ∧
    sanitizeCommand (List.replicate 1000 'a' ++ [' ']) =
      .ok (List.replicate 1000 'a') := by
  have htrim : jsTrim (List.replicate 1000 'a' ++ [' ']) = List.replicate 1000 'a' :=
    jsTrim_replicate_append 999 [' '] (by decide)
  constructor
  · rw [List.length_append, List.length_replicate]
    rfl
  · rw [sanitizeCommand]
    simp only [htrim]
    have hne : (List.replicate 1000 'a').isEmpty = false := by
      rw [List.replicate_succ]
      rfl
    rw [hne]
    simp only [Bool.false_eq_true, if_false, List.length_replicate]
    rfl

/-- C5 (amended): `sanitizeCommand` rejects empty or whitespace-only
commands; rejects commands whose **trimmed** length exceeds 1 000
characters; and otherwise returns the command with leading and trailing
whitespace removed. -/
theorem sanitizeCommand_spec (command : List Char) :
    ((∀ c ∈ command, isJsWhitespace c) →
        sanitizeCommand command = .error "command cannot be empty") ∧
    (¬ (∀ c ∈ command, isJsWhitespace c) →
      (COMMAND_MAX_CHARS < (jsTrim command).length →
          sanitizeCommand command = .error "command exceeds 1000 characters") ∧
      ((jsTrim command).length ≤ COMMAND_MAX_CHARS →
          sanitizeCommand command = .ok (jsTrim command))) := by
  constructor
  · intro hws
    have h : jsTrim command = [] := (jsTrim_eq_nil_iff command).mpr hws
    rw [sanitizeCommand]
    simp [h]
  · intro hws
    have h : ¬ jsTrim command = [] := fun h => hws ((jsTrim_eq_nil_iff command).mp h)
    have hne : (jsTrim command).isEmpty = false := by
      rw [List.isEmpty_eq_false_iff_exists_mem]
      rcases List.exists_mem_of_ne_nil _ h with ⟨c, hc⟩
      exact ⟨c, hc⟩
    constructor
    · intro hlen
      rw [sanitizeCommand]
      simp only [hne, Bool.false_eq_true, if_false]
      rw [if_pos hlen]
    · intro hlen
      rw [sanitizeCommand]
      simp only [hne, Bool.false_eq_true, if_false]
      rw [if_neg (by omega)]

/-- Witness for `sanitizeCommand_spec` at three concrete commands: a
whitespace-only one, a paddded short one, and an over-long one. -/
theorem sanitizeCommand_spec_witness :
    sanitizeCommand [' ', ' '] = .error "command cannot be empty" ∧
    sanitizeCommand [' ', 'l', 's', ' '] = .ok ['l', 's'] ∧
    sanitizeCommand (List.replicate 1001 'a') =
      .error "command exceeds 1000 characters" := by
  refine ⟨(sanitizeCommand_spec _).1 (by decide), ?_, ?_⟩
  · have h := ((sanitizeCommand_spec [' ', 'l', 's', ' ']).2 (by decide)).2 (by decide)
    rw [h]
    rfl
  · have hl : jsTrim (List.replicate 1001 'a') = List.replicate 1001 'a' := by
      have := jsTrim_replicate_append 1000 [] (by simp)
      rwa [List.append_nil] at this
    have hnw : ¬ (∀ c ∈ List.replicate 1001 'a', isJsWhitespace c) := by
      intro h
      have := h 'a' (by rw [List.mem_replicate]; exact ⟨by decide, rfl⟩)
      exact absurd this (by decide)
    refine ((sanitizeCommand_spec _).2 hnw).1 ?_
    rw [hl, List.length_replicate]
    decide

/-- The comparator is antisymmetric: comparing in the opposite order flips
the sign. -/
theorem localeCompareM_swap : ∀ a b : List Char,
    localeCompareM a b = - localeCompareM b a
  | [], [] => by simp [localeCompareM]
  | [], _ :: _ => by simp [localeCompareM]
  | _ :: _, [] => by simp [localeCompareM]
  | c :: cs, d :: ds => by
      simp only [localeCompareM]
      rcases lt_trichotomy c d with h | h | h
      · rw [if_pos h, if_neg (asymm h), if_pos h]
      · subst h
        simp only [if_neg (lt_irrefl c)]
        exact localeCompareM_swap cs ds
      · rw [if_neg (asymm h), if_pos h, if_pos h]
        norm_num

/-- The comparator returns zero exactly on equal strings. -/
theorem localeCompareM_eq_zero_iff : ∀ a b : List Char,
    localeCompareM a b = 0 ↔ a = b
  | [], [] => by simp [localeCompareM]
  | [], _ :: _ => by simp [localeCompareM]
  | _ :: _, [] => by simp [localeCompareM]
  | c :: cs, d :: ds => by
      simp only [localeCompareM]
      rcases lt_trichotomy c d with h | h | h
      · rw [if_pos h]
        simp [h.ne]
      · subst h
        simp only [if_neg (lt_irrefl c)]
        rw [localeCompareM_eq_zero_iff cs ds]
        simp
      · rw [if_neg (asymm h), if_pos h]
        constructor
        · intro h0
          exact absurd h0 (by decide)
        · intro h0
          rw [List.cons_eq_cons] at h0
          exact absurd h0.1 h.ne'

/-- "Not after" is transitive on strings. -/
theorem localeCompareM_le_trans : ∀ a b c : List Char,
    localeCompareM a b ≤ 0 → localeCompareM b c ≤ 0 → localeCompareM a c ≤ 0
  | [], b, [], _, _ => by cases b <;> simp [localeCompareM]
  | [], b, _ :: _, _, _ => by simp [localeCompareM]
  | x :: xs, [], c, h1, _ => by simp [localeCompareM] at h1
  | x :: xs, y :: ys, [], _, h2 => by simp [localeCompareM] at h2
  | x :: xs, y :: ys, z :: zs, h1, h2 => by
      simp only [localeCompareM] at h1 h2 ⊢
      rcases lt_trichotomy x y with hxy | hxy | hxy
      · rcases lt_trichotomy y z with hyz | hyz | hyz
        · rw [if_pos (hxy.trans hyz)]
          decide
        · subst hyz
          rw [if_pos hxy]
          decide
        · rw [if_neg (asymm hyz), if_pos hyz] at h2
          exact absurd h2 (by decide)
      · subst hxy
        rcases lt_trichotomy x z with hxz | hxz | hxz
        · rw [if_pos hxz]
          decide
        · subst hxz
          simp only [if_neg (lt_irrefl x)] at h1 h2 ⊢
          exact localeCompareM_le_trans xs ys zs h1 h2
        · rw [if_neg (asymm hxz), if_pos hxz] at h2
          exact absurd h2 (by decide)
      · rw [if_neg (asymm hxy), if_pos hxy] at h1
        exact absurd h1 (by decide)

/-- What the comparator's "not after" relation says: a directory never comes
after a non-directory, and within one group order is by filename. -/
theorem fileLe_iff (a b : FileInfo) :
    fileLe a b = true ↔
      ((a.isDirectory = true ∧ b.isDirectory = false) ∨
       (a.isDirectory = b.isDirectory ∧
         localeCompareM a.filename b.filename ≤ 0)) := by
  rw [fileLe, fileCompare]
  cases ha : a.isDirectory <;> cases hb : b.isDirectory <;>
    simp [ha, hb, decide_eq_true_eq]

/-- The comparator's relation is total. -/
theorem fileLe_total (a b : FileInfo) : fileLe a b || fileLe b a := by
  rw [Bool.or_eq_true, fileLe_iff, fileLe_iff]
  cases ha : a.isDirectory <;> cases hb : b.isDirectory <;> simp
  all_goals
    have hs := localeCompareM_swap a.filename b.filename
    omega

/-- The comparator's relation is transitive. -/
theorem fileLe_trans (a b c : FileInfo) :
    fileLe a b → fileLe b c → fileLe a c := by
  rw [fileLe_iff, fileLe_iff, fileLe_iff]
  intro h1 h2
  rcases h1 with ⟨ha, hb⟩ | ⟨hab, hlex1⟩
  · rcases h2 with ⟨hb', hc⟩ | ⟨hbc, hlex2⟩
    · rw [hb] at hb'
      exact absurd hb' (by decide)
    · exact Or.inl ⟨ha, hb ▸ hbc.symm⟩
  · rcases h2 with ⟨hb', hc⟩ | ⟨hbc, hlex2⟩
    · exact Or.inl ⟨hab.trans hb', hc⟩
    · exact Or.inr ⟨hab.trans hbc,
        localeCompareM_le_trans _ _ _ hlex1 hlex2⟩

/-- Two lists that are permutations of each other, both sorted by `r`, and on
whose elements `r` is antisymmetric, are equal. -/
theorem pairwise_perm_eq {α : Type} {r : α → α → Prop} :
    ∀ {l₁ l₂ : List α}, l₁.Perm l₂ → l₁.Pairwise r → l₂.Pairwise r →
      (∀ a ∈ l₁, ∀ b ∈ l₁, r a b → r b a → a = b) → l₁ = l₂
  | [], l₂, hp, _, _, _ => (hp.nil_eq).symm ▸ rfl
  | a :: t₁, [], hp, _, _, _ => absurd hp.length_eq (by simp)
  | a :: t₁, b :: t₂, hp, hs₁, hs₂, hanti => by
      by_cases hab : a = b
      · subst hab
        have ht : t₁.Perm t₂ := hp.cons_inv
        have het : t₁ = t₂ :=
          pairwise_perm_eq ht (List.Pairwise.sublist (by simp) hs₁)
            (List.Pairwise.sublist (by simp) hs₂)
            (fun x hx y hy hr hr' =>
              hanti x (List.mem_cons_of_mem _ hx) y (List.mem_cons_of_mem _ hy)
                hr hr')
        rw [het]
      · have hamem : a ∈ b :: t₂ := hp.mem_iff.mp (by simp)
        have hbmem : b ∈ a :: t₁ := hp.mem_iff.mpr (by simp)
        have hat2 : a ∈ t₂ := by
          rcases List.mem_cons.mp hamem with h | h
          · exact absurd h hab
          · exact h
        have hbt1 : b ∈ t₁ := by
          rcases List.mem_cons.mp hbmem with h | h
          · exact absurd h.symm hab
          · exact h
        have hr1 : r a b := (List.pairwise_cons.mp hs₁).1 b hbt1
        have hr2 : r b a := (List.pairwise_cons.mp hs₂).1 a hat2
        exact absurd
          (hanti a (by simp) b (List.mem_cons_of_mem _ hbt1) hr1 hr2) hab

/-- Elements of a listing with pairwise-distinct raw filenames and equal
filename fields coincide. -/
theorem mapped_filename_inj (raw : List RawDirEntry)
    (hnd : (raw.map fun e => e.filename).Pairwise (· ≠ ·)) :
    ∀ a ∈ raw.map toFileInfo, ∀ b ∈ raw.map toFileInfo,
      a.filename = b.filename → a = b := by
  have hnd' : (raw.map toFileInfo).Pairwise
      (fun u v => u.filename ≠ v.filename) := by
    rw [List.pairwise_map]
    rw [List.pairwise_map] at hnd
    exact hnd
  have hsymm : Symmetric (fun u v : FileInfo => u.filename ≠ v.filename) := by
    intro x y h h'
    exact h h'.symm
  intro a ha b hb hf
  by_contra hne
  exact (hnd'.forall hsymm ha hb hne) hf

/-- C6: `listDirectory` output is sorted — every directory entry precedes
every non-directory entry, entries of one group are in (non-decreasing)
lexicographic filename order — and, when the directory's filenames are
distinct, the output is the same for every enumeration order the transport
may produce. -/
theorem listDirectory_sorted (path : List Char) (raw : List RawDirEntry) :
    ((listDirectory path raw).files.Pairwise
        fun a b => ¬ (a.isDirectory = false ∧ b.isDirectory = true)) ∧
    ((listDirectory path raw).files.Pairwise
        fun a b => a.isDirectory = b.isDirectory →
          localeCompareM a.filename b.filename ≤ 0) ∧
    (∀ raw' : List RawDirEntry, raw.Perm raw' →
      (raw.map fun e => e.filename).Pairwise (· ≠ ·) →
      listDirectory path raw = listDirectory path raw') := by
  have hsort : ∀ l : List RawDirEntry,
      ((l.map toFileInfo).mergeSort fileLe).Pairwise
        (fun a b => fileLe a b = true) :=
    fun l => List.sorted_mergeSort fileLe_trans fileLe_total (l.map toFileInfo)
  refine ⟨?_, ?_, ?_⟩
  · refine (hsort raw).imp ?_
    intro a b hle ⟨hfa, hfb⟩
    rcases (fileLe_iff a b).mp hle with ⟨ha, _⟩ | ⟨heq, _⟩
    · rw [ha] at hfa
      exact absurd hfa (by decide)
    · rw [hfa, hfb] at heq
      exact absurd heq (by decide)
  · refine (hsort raw).imp ?_
    intro a b hle heq
    rcases (fileLe_iff a b).mp hle with ⟨ha, hb⟩ | ⟨_, hlex⟩
    · rw [ha, hb] at heq
      exact absurd heq (by decide)
    · exact hlex
  · intro raw' hperm hnd
    have hfiles :
        (raw.map toFileInfo).mergeSort fileLe =
          (raw'.map toFileInfo).mergeSort fileLe := by
      have hp : ((raw.map toFileInfo).mergeSort fileLe).Perm
          ((raw'.map toFileInfo).mergeSort fileLe) :=
        ((List.mergeSort_perm _ fileLe).trans (hperm.map toFileInfo)).trans
          (List.mergeSort_perm _ fileLe).symm
      refine pairwise_perm_eq hp (hsort raw) (hsort raw') ?_
      intro a ha b hb hab hba
      have ha' : a ∈ raw.map toFileInfo :=
        (List.mergeSort_perm _ fileLe).mem_iff.mp ha
      have hb' : b ∈ raw.map toFileInfo :=
        (List.mergeSort_perm _ fileLe).mem_iff.mp hb
      rcases (fileLe_iff a b).mp hab with ⟨haT, hbF⟩ | ⟨heq1, hlex1⟩
      · rcases (fileLe_iff b a).mp hba with ⟨hbT, _⟩ | ⟨heq2, _⟩
        · rw [hbT] at hbF
          exact absurd hbF (by decide)
        · rw [haT, hbF] at heq2
          exact absurd heq2 (by decide)
      · rcases (fileLe_iff b a).mp hba with ⟨hbT, haF⟩ | ⟨_, hlex2⟩
        · rw [haF, hbT] at heq1
          exact absurd heq1 (by decide)
        · have hzero : localeCompareM a.filename b.filename = 0 := by
            have hs := localeCompareM_swap a.filename b.filename
            omega
          exact mapped_filename_inj raw hnd a ha' b hb'
            ((localeCompareM_eq_zero_iff _ _).mp hzero)
    rw [listDirectory, listDirectory, hfiles]

/-- Witness for `listDirectory_sorted`: a file entry and a directory entry,
enumerated in either order, produce the same listing — directory first. -/
theorem listDirectory_sorted_witness :
    listDirectory ['/'] [sampleRawFile, sampleRawDir] =
      listDirectory ['/'] [sampleRawDir, sampleRawFile] ∧
    (listDirectory ['/'] [sampleRawFile, sampleRawDir]).files =
      [toFileInfo sampleRawDir, toFileInfo sampleRawFile] := by
  constructor
  · exact (listDirectory_sorted ['/'] [sampleRawFile, sampleRawDir]).2.2
      [sampleRawDir, sampleRawFile] (List.Perm.swap _ _ _) (by decide)
  · show ([sampleRawFile, sampleRawDir].map toFileInfo).mergeSort fileLe =
      [toFileInfo sampleRawDir, toFileInfo sampleRawFile]
    have hperm2 :
        ((([sampleRawFile, sampleRawDir].map toFileInfo).mergeSort fileLe)).Perm
          [toFileInfo sampleRawDir, toFileInfo sampleRawFile] := by
      refine (List.mergeSort_perm _ _).trans ?_
      simp only [List.map_cons, List.map_nil]
      exact List.Perm.swap _ _ _
    have hs2 : ([toFileInfo sampleRawDir, toFileInfo sampleRawFile] :
        List FileInfo).Pairwise (fun a b => fileLe a b = true) := by decide
    have hanti : ∀ a ∈ [toFileInfo sampleRawDir, toFileInfo sampleRawFile],
        ∀ b ∈ [toFileInfo sampleRawDir, toFileInfo sampleRawFile],
        fileLe a b = true → fileLe b a = true → a = b := by decide
    exact pairwise_perm_eq hperm2
      (List.sorted_mergeSort fileLe_trans fileLe_total _) hs2
      (fun a ha b hb => hanti a (hperm2.mem_iff.mp ha) b (hperm2.mem_iff.mp hb))

/-- C7: a connect request that passes parameter validation but supplies no
authentication method fails identically for every possible handshake
outcome — i.e. before any network activity — with the configuration error,
whose message mentions "authentication". -/
theorem connect_requires_auth (st : Handlers) (p : ConnectParams)
    (newId : String) (client : SshClientH) (now : Nat)
    (hvalid : connectParamsValid p = true)
    (hnone : p.password = none ∧ p.private_key = none ∧
      p.private_key_path = none) :
    (∀ handshake : Except String Unit,
      connect st p newId client handshake now =
        (st, .error "At least one authentication method is required (password, private_key, or private_key_path)")) ∧
    ("authentication".toList <:+:
      "At least one authentication method is required (password, private_key, or private_key_path)".toList) := by
  constructor
  · intro hs
    have hauth : hasAuthMethod p = false := by
      rcases hnone with ⟨h1, h2, h3⟩
      rw [hasAuthMethod, h1, h2, h3]
      rfl
    rw [connect.eq_def, hvalid, hauth]
    rfl
  · decide

/-- Witness for `connect_requires_auth` at a concrete valid-but-authless
request: the result is the configuration error and the state is untouched,
here shown for a successful would-be handshake. -/
theorem connect_requires_auth_witness :
    connect sampleHandlers sampleNoAuthParams "id2" sampleClient (.ok ()) 7 =
      (sampleHandlers, .error "At least one authentication method is required (password, private_key, or private_key_path)") :=
  (connect_requires_auth sampleHandlers sampleNoAuthParams "id2" sampleClient 7
    (by decide) ⟨rfl, rfl, rfl⟩).1 (.ok ())

/-- The registry after one `cleanup` iteration: that session's entry is
removed (the surrounding close calls do not touch the registry). -/
theorem cleanupStep_registry (acc : Handlers) (id : String) :
    (cleanupStep acc id).registry = (removeSession acc.registry id).2 := by
  rw [cleanupStep]
  cases alGet acc.sftpClients id <;> cases alGet acc.clients id <;> rfl

/-- Projection of the cleanup loop onto the registry. -/
theorem cleanup_foldl_registry : ∀ (ids : List String) (st : Handlers),
    ((ids.foldl cleanupStep st).registry) =
      ids.foldl (fun reg id => (removeSession reg id).2) st.registry
  | [], st => rfl
  | k :: ks, st => by
      rw [List.foldl_cons, List.foldl_cons, cleanup_foldl_registry ks,
        cleanupStep_registry]

/-- Removing every key a registry holds empties it. -/
theorem removeAll_empty : ∀ (ids : List String) (reg : RegistryMap),
    (∀ r ∈ reg, r.sessionId ∈ ids) →
    ids.foldl (fun reg id => (removeSession reg id).2) reg = []
  | [], reg, h => by
      cases reg with
      | nil => rfl
      | cons r t => exact absurd (h r (by simp)) (by simp)
  | k :: ks, reg, h => by
      rw [List.foldl_cons]
      refine removeAll_empty ks _ ?_
      intro r hr
      have hm := List.mem_filter.mp hr
      rcases List.mem_cons.mp (h r hm.1) with he | he
      · have h2 := hm.2
        rw [he] at h2
        simp at h2
      · exact he

/-- C4: after `cleanup()` the registry holds zero sessions and the default
session id is cleared, for every starting state — in particular however the
individual SFTP / SSH `close()` calls behave, since their errors are
swallowed. -/
theorem cleanup_empties_registry (st : Handlers) :
    (cleanup st).registry = [] ∧ (cleanup st).defaultSessionId = none := by
  constructor
  · show ((listSessionIds st.registry).foldl cleanupStep st).registry = []
    rw [cleanup_foldl_registry]
    refine removeAll_empty _ _ ?_
    intro r hr
    exact List.mem_map.mpr ⟨r, hr, rfl⟩
  · rfl

/-- C10: an exec request whose command fails sanitization leaves the
orchestrator state — in particular every session's `lastUsedAt` — exactly
as it was, and yields an error: the session is only touched after the
command has been validated. -/
theorem exec_invalid_command_preserves_state (st : Handlers) (p : ExecParams)
    (now : Nat) (e : String)
    (herr : sanitizeCommand p.command = .error e) :
    (exec st p now).1 = st ∧ ∃ msg, (exec st p now).2 = .error msg := by
  rw [exec]
  split
  · exact ⟨rfl, _, rfl⟩
  · split
    · exact ⟨rfl, _, rfl⟩
    · split
      · exact ⟨rfl, _, rfl⟩
      · split
        · exact ⟨rfl, _, rfl⟩
        · split
          · exact ⟨rfl, _, rfl⟩
          · next heq =>
              rw [herr] at heq
              simp at heq

/-- Witness for `exec_invalid_command_preserves_state`: a whitespace-only
command against a live session changes nothing. -/
theorem exec_invalid_command_preserves_state_witness :
    sanitizeCommand sampleBadExecParams.command =
      .error "command cannot be empty" ∧
    (exec sampleHandlers sampleBadExecParams 99).1 = sampleHandlers := by
  have h : sanitizeCommand sampleBadExecParams.command =
      .error "command cannot be empty" := rfl
  exact ⟨h, (exec_invalid_command_preserves_state sampleHandlers
    sampleBadExecParams 99 _ h).1⟩

/-- A key is live in a map exactly when some entry carries it. -/
theorem alGet_isSome_iff {β : Type} (m : List (String × β)) (k : String) :
    (alGet m k).isSome = true ↔ ∃ p ∈ m, p.1 = k := by
  rw [alGet]
  cases h : m.find? fun p => p.1 == k with
  | none =>
      simp only [Option.map_none', Option.isSome_none, Bool.false_eq_true,
        false_iff]
      rw [List.find?_eq_none] at h
      rintro ⟨p, hp, he⟩
      exact absurd (by simp [he]) (h p hp)
  | some q =>
      simp only [Option.map_some', Option.isSome_some, true_iff]
      refine ⟨q, List.mem_of_find?_eq_some h, ?_⟩
      have := List.find?_some h
      simpa using this

/-- Deleting key `k` keeps exactly the live keys other than `k`. -/
theorem alGet_alDelete_isSome {β : Type} (m : List (String × β))
    (k x : String) :
    (alGet (alDelete m k) x).isSome = true ↔
      ((alGet m x).isSome = true ∧ ¬ x = k) := by
  rw [alGet_isSome_iff, alGet_isSome_iff, alDelete]
  constructor
  · rintro ⟨p, hp, he⟩
    have hm := List.mem_filter.mp hp
    have hk : ¬ p.1 = k := by
      have := hm.2
      simpa using this
    exact ⟨⟨p, hm.1, he⟩, he ▸ hk⟩
  · rintro ⟨⟨p, hp, he⟩, hxk⟩
    refine ⟨p, List.mem_filter.mpr ⟨hp, ?_⟩, he⟩
    simp [he, hxk]

/-- Setting key `k` makes exactly `k` and the previously live keys live. -/
theorem alGet_alSet_isSome {β : Type} (m : List (String × β)) (k x : String)
    (v : β) :
    (alGet (alSet m k v) x).isSome = true ↔
      (x = k ∨ (alGet m x).isSome = true) := by
  rw [alGet_isSome_iff, alGet_isSome_iff, alSet]
  split
  · next hfind =>
      constructor
      · rintro ⟨p, hp, he⟩
        rcases List.mem_map.mp hp with ⟨q, hq, hfq⟩
        by_cases hqk : q.1 == k
        · rw [if_pos hqk] at hfq
          left
          rw [← he, ← hfq]
        · rw [if_neg hqk] at hfq
          exact Or.inr ⟨q, hq, hfq ▸ he⟩
      · rintro (rfl | ⟨q, hq, he⟩)
        · rw [List.find?_isSome] at hfind
          rcases hfind with ⟨q, hq, hqk⟩
          refine ⟨(x, v), List.mem_map.mpr ⟨q, hq, ?_⟩, rfl⟩
          rw [if_pos hqk]
        · by_cases hqk : q.1 == k
          · refine ⟨(k, v), List.mem_map.mpr ⟨q, hq, by rw [if_pos hqk]⟩, ?_⟩
            have : q.1 = k := by simpa using hqk
            rw [← he, this]
          · exact ⟨q, List.mem_map.mpr ⟨q, hq, by rw [if_neg hqk]⟩, he⟩
  · constructor
    · rintro ⟨p, hp, he⟩
      rcases List.mem_append.mp hp with h | h
      · exact Or.inr ⟨p, h, he⟩
      · left
        have : p = (k, v) := by simpa using h
        rw [← he, this]
    · rintro (rfl | ⟨q, hq, he⟩)
      · exact ⟨(x, v), List.mem_append.mpr (Or.inr (by simp)), rfl⟩
      · exact ⟨q, List.mem_append.mpr (Or.inl hq), he⟩

/-- One cleanup iteration preserves the transfer-channel ⊆ transport-client
key invariant. -/
theorem cleanupStep_preserves_inv (acc : Handlers) (id : String)
    (hinv : sftpSubsetClients acc) :
    sftpSubsetClients (cleanupStep acc id) := by
  rw [cleanupStep]
  cases h1 : alGet acc.sftpClients id <;> cases h2 : alGet acc.clients id <;>
    intro x hx <;> simp only at hx ⊢
  · exact hinv x hx
  · rw [alGet_alDelete_isSome]
    exact ⟨hinv x hx, fun hxk => by rw [hxk, h1] at hx; simp at hx⟩
  · rw [alGet_alDelete_isSome] at hx
    exact hinv x hx.1
  · rw [alGet_alDelete_isSome] at hx
    rw [alGet_alDelete_isSome]
    exact ⟨hinv x hx.1, hx.2⟩

/-- The cleanup loop preserves the invariant. -/
theorem cleanup_foldl_preserves_inv : ∀ (ids : List String) (st : Handlers),
    sftpSubsetClients st → sftpSubsetClients (ids.foldl cleanupStep st)
  | [], st, h => h
  | k :: ks, st, h => by
      rw [List.foldl_cons]
      exact cleanup_foldl_preserves_inv ks _ (cleanupStep_preserves_inv st k h)

/-- `disconnect` preserves the transfer-channel ⊆ transport-client key
invariant on every path, including the error paths. -/
theorem disconnect_preserves_inv (st : Handlers) (sid : Option String)
    (hinv : sftpSubsetClients st) :
    sftpSubsetClients (disconnect st sid).1 := by
  rw [disconnect.eq_def]
  cases getEffectiveSessionId st sid with
  | error e => exact hinv
  | ok id =>
      simp only
      cases getSession st.registry id with
      | none => exact hinv
      | some session =>
          simp only
          rcases h1 : alGet st.sftpClients id with _ | sftp
          · simp only [h1]
            rcases h2 : alGet st.clients id with _ | c
            · simp only [h2]
              split <;> exact hinv
            · simp only [h2, sshClose]
              rcases hc : c.closeThrows with _ | _
              · simp only [hc, Bool.false_eq_true, if_false]
                split <;>
                  · intro x hx
                    simp only at hx ⊢
                    rw [alGet_alDelete_isSome]
                    refine ⟨hinv x hx, fun hxk => ?_⟩
                    rw [hxk, h1] at hx
                    simp at hx
              · simp only [hc, if_true]
                exact hinv
          · simp only [h1, sftpClose]
            rcases hs : sftp.closeThrows with _ | _
            · simp only [hs, Bool.false_eq_true, if_false]
              have hinv1 : sftpSubsetClients
                  { st with sftpClients := alDelete st.sftpClients id } := by
                intro x hx
                simp only at hx ⊢
                rw [alGet_alDelete_isSome] at hx
                exact hinv x hx.1
              rcases h2 : alGet st.clients id with _ | c
              · simp only [h2]
                split <;> exact hinv1
              · simp only [h2, sshClose]
                rcases hc : c.closeThrows with _ | _
                · simp only [hc, Bool.false_eq_true, if_false]
                  split <;>
                    · intro x hx
                      simp only at hx ⊢
                      rw [alGet_alDelete_isSome] at hx
                      rw [alGet_alDelete_isSome]
                      exact ⟨hinv x hx.1, hx.2⟩
                · simp only [hc, if_true]
                  exact hinv1
            · simp only [hs, if_true]
              exact hinv

/-- C9: every orchestrator operation keeps each session id with a live
transfer channel (`sftpClients`) backed by a live transport client
(`clients`): `connect` only adds a client, `getSftpClient` creates a channel
only when the client exists, and `disconnect` / `cleanup` remove the channel
no later than the client — whatever error path is taken. -/
theorem sftp_subset_clients_invariant (st : Handlers)
    (hinv : sftpSubsetClients st) :
    (∀ (p : ConnectParams) (newId : String) (client : SshClientH)
        (hs : Except String Unit) (now : Nat),
      sftpSubsetClients (connect st p newId client hs now).1) ∧
    (∀ sid : String, sftpSubsetClients (getSftpClient st sid).1) ∧
    (∀ sid : Option String, sftpSubsetClients (disconnect st sid).1) ∧
    sftpSubsetClients (cleanup st) := by
  refine ⟨?_, ?_, fun sid => disconnect_preserves_inv st sid hinv, ?_⟩
  · intro p newId client hs now
    rw [connect.eq_def]
    split
    · exact hinv
    · split
      · exact hinv
      · split
        · exact hinv
        · intro x hx
          simp only at hx ⊢
          rw [alGet_alSet_isSome]
          exact Or.inr (hinv x hx)
  · intro sid
    rw [getSftpClient.eq_def]
    split
    · exact hinv
    · split
      · exact hinv
      · next c hc =>
          intro x hx
          simp only at hx ⊢
          rw [alGet_alSet_isSome] at hx
          rcases hx with rfl | hx
          · rw [hc]
            rfl
          · exact hinv x hx
  · show sftpSubsetClients
      { (listSessionIds st.registry).foldl cleanupStep st with
        defaultSessionId := none }
    intro x hx
    exact cleanup_foldl_preserves_inv _ st hinv x hx

/-- Witness for `sftp_subset_clients_invariant`: the one-session sample
state satisfies the invariant, so cleaning it up does too. -/
theorem sftp_subset_clients_invariant_witness :
    sftpSubsetClients (cleanup sampleHandlers) := by
  refine (sftp_subset_clients_invariant sampleHandlers ?_).2.2.2
  intro id h
  rw [alGet_isSome_iff] at h ⊢
  rcases h with ⟨p, hp, he⟩
  have hp' : p = ("s1", ({ closeThrows := true } : SftpH)) := by
    simpa [sampleHandlers] using hp
  refine ⟨("s1", { clientToken := 0, closeThrows := true, execOutcome := .error "not run" }), by simp [sampleHandlers], ?_⟩
  rw [hp'] at he
  exact he

end Ssh
